import Mathlib

/-!
Verification of the client-side bootstrap layer of the build tool
(option schema, command-line classification, workspace discovery,
session dispatch) against its design specification.

The only C++ source in the repository is the entry-point wiring
`src/main/cpp/main.cc` (`main_impl`, POSIX `main`, Windows `wmain`); it
delegates to `blaze::Main` with a `WorkspaceLayout`, a `BazelStartupOptions`
schema and an `OptionProcessor`.  Those collaborators are not in the visible
source, so the classifier, workspace locator and session dispatcher below are
modelled from the specification; the entry points are embedded from
`main.cc` directly.
-/

namespace Bazel

/-! ### Option schema (modelled from the spec §3/§4.1) -/

/-- Modelled from the spec: value kinds of a startup flag.  The spec lists
boolean/string/integer/path/repeated-string; string, integer and path all
carry one textual value (`single`), repeated-string accumulates
(`repeated`). -/
inductive ValueKind
  | boolean
  | single
  | repeated
  deriving DecidableEq, Repr

/-- A resolved option value. -/
inductive OptionValue
  | bool (b : Bool)
  | str (s : String)
  | strs (l : List String)
  deriving DecidableEq, Repr

/-- Modelled from the spec: an `OptionSpec` is {name, value-kind, default}. -/
structure OptionSpec where
  name : String
  kind : ValueKind
  dflt : OptionValue
  deriving DecidableEq, Repr

/-- The Option Schema: a declarative registry of `OptionSpec`s keyed by
name. -/
abbrev Schema := List OptionSpec

/-- Schema lookup by flag name (first declaration wins). -/
def lookupSpec (schema : Schema) (n : String) : Option OptionSpec :=
  match schema with
  | [] => none
  | s :: rest => if s.name = n then some s else lookupSpec rest n

/-! ### Flag-token syntax -/

/-- A token is flag-looking when it starts with `--` and is not the bare
`--` terminator. -/
def isFlagToken (t : String) : Bool :=
  match t.data with
  | '-' :: '-' :: rest => !rest.isEmpty
  | _ => false

/-- The characters of a flag token after the leading `--`. -/
def flagBody (t : String) : List Char := t.data.drop 2

/-- Characters of the flag name: everything before the first `=`. -/
def flagNameChars : List Char → List Char
  | [] => []
  | c :: rest => if c = '=' then [] else c :: flagNameChars rest

/-- Characters of the inline value: everything after the first `=`,
if an `=` is present. -/
def flagValChars : List Char → Option (List Char)
  | [] => none
  | c :: rest => if c = '=' then some rest else flagValChars rest

/-- The flag name of a `--name` / `--name=value` token. -/
def flagName (t : String) : String := ⟨flagNameChars (flagBody t)⟩

/-- The inline `=value` part of a flag token, when present. -/
def flagInlineValue (t : String) : Option String :=
  (flagValChars (flagBody t)).map (fun cs => ⟨cs⟩)

/-! ### Command-line classification (modelled from the spec §4.3) -/

/-- Classification errors: an unknown or malformed startup flag is a
`SchemaViolation`, carrying the offending token. -/
inductive ClassificationError
  | SchemaViolation (tok : String)
  deriving DecidableEq, Repr

/-- A classified command: name plus verbatim argument sequence. -/
structure Command where
  name : String
  args : List String
  deriving DecidableEq, Repr

/-- One explicit startup-flag occurrence recognized in the startup region:
the flag name and its raw supplied value (`none` for a bare boolean flag). -/
abbrev Assignment := String × Option String

/-- How the scanner treats one token of the startup region (modelled from
the spec §4.3): the `--` terminator; a non-flag token (the command name);
an unknown or malformed flag (a hard classification error); a
self-contained declared flag (`--name` for booleans, `--name=value` for
valued kinds); or a declared valued flag whose value is the next token
(`--name value`). -/
inductive TokenClass
  | terminator
  | commandTok
  | violation
  | flagInline (a : Assignment)
  | flagSeparate (name : String)
  deriving DecidableEq, Repr

/-- Decide how one token is treated against the schema. -/
def classifyToken (schema : Schema) (t : String) : TokenClass :=
  if t = "--" then .terminator
  else if isFlagToken t then
    match lookupSpec schema (flagName t) with
    | none => .violation
    | some s =>
      match s.kind, flagInlineValue t with
      | .boolean, none => .flagInline (flagName t, none)
      | .boolean, some _ => .violation
      | _, some v => .flagInline (flagName t, some v)
      | _, none => .flagSeparate (flagName t)
  else .commandTok

/-- Modelled from the spec: scan tokens left to right.  While a token
matches a declared startup-flag syntax (`--name` for booleans,
`--name=value` or `--name value` for valued kinds) resolve it against the
schema; unknown flags in this region are a hard classification error.  The
scan ends at the first token that is not a recognized startup flag and is
not the `--` terminator; that token becomes the command name.  A `--`
forces the next token to be the command name.  Returns the ordered list of
explicit assignments and the command (absent on an empty region). -/
def scanStartup (schema : Schema) :
    List String → Except ClassificationError (List Assignment × Option Command)
  | [] => .ok ([], none)
  | [t] =>
    match classifyToken schema t with
    | .terminator => .ok ([], none)
    | .commandTok => .ok ([], some ⟨t, []⟩)
    | .violation => .error (.SchemaViolation t)
    | .flagInline a => .ok ([a], none)
    | .flagSeparate _ => .error (.SchemaViolation t)
  | t :: u :: rest =>
    match classifyToken schema t with
    | .terminator => .ok ([], some ⟨u, rest⟩)
    | .commandTok => .ok ([], some ⟨t, u :: rest⟩)
    | .violation => .error (.SchemaViolation t)
    | .flagInline a => (scanStartup schema (u :: rest)).map (fun p => (a :: p.1, p.2))
    | .flagSeparate n => (scanStartup schema rest).map (fun p => ((n, some u) :: p.1, p.2))

/-- Interpretation of one raw occurrence at the flag's declared kind. -/
def interpValue (s : OptionSpec) (raw : Option String) : OptionValue :=
  match s.kind with
  | .boolean => .bool true
  | _ => .str (raw.getD "")

/-- Association-list lookup for resolved options. -/
def lookupOpt (m : List (String × OptionValue)) (k : String) : Option OptionValue :=
  match m with
  | [] => none
  | (k', v) :: rest => if k' = k then some v else lookupOpt rest k

/-- In-place update of an association list at key `k`, applying `f` to the
current binding (inserting at the end when absent). -/
def updateAssoc (m : List (String × OptionValue)) (k : String)
    (f : Option OptionValue → OptionValue) : List (String × OptionValue) :=
  match m with
  | [] => [(k, f none)]
  | (k', v) :: rest =>
    if k' = k then (k, f (some v)) :: rest else (k', v) :: updateAssoc rest k f

/-- Accumulation step for a repeatable flag: append the new value to the
values gathered so far. -/
def appendRepeated (v : String) : Option OptionValue → OptionValue
  | some (.strs l) => .strs (l ++ [v])
  | _ => .strs [v]

/-- Apply one explicit assignment: a repeatable flag accumulates, a
non-repeatable flag is overridden (last occurrence wins). -/
def applyAssignment (schema : Schema) (m : List (String × OptionValue))
    (a : Assignment) : List (String × OptionValue) :=
  match lookupSpec schema a.1 with
  | none => m
  | some s =>
    match s.kind with
    | .repeated => updateAssoc m a.1 (appendRepeated (a.2.getD ""))
    | _ => updateAssoc m a.1 (fun _ => interpValue s a.2)

/-- The explicitly-supplied option bindings, built by folding the ordered
assignment list. -/
def buildExplicit (schema : Schema) (asgns : List Assignment) :
    List (String × OptionValue) :=
  asgns.foldl (applyAssignment schema) []

/-- After scanning, every declared startup flag not explicitly supplied is
set to its schema default: the final `ParsedStartupOptions` binds every
declared flag. -/
def mkOptions (schema : Schema) (explicit : List (String × OptionValue)) :
    List (String × OptionValue) :=
  schema.map (fun s => (s.name, (lookupOpt explicit s.name).getD s.dflt))

/-- The classifier's successful result: fully-populated startup options and
the command (with verbatim arguments), when one was recognized. -/
structure ClassifyResult where
  options : List (String × OptionValue)
  command : Option Command
  deriving DecidableEq, Repr

/-- `classify(argv, schema) → {ParsedStartupOptions, Command} |
ClassificationError` (modelled from the spec §4.3). -/
def classify (schema : Schema) (argv : List String) :
    Except ClassificationError ClassifyResult :=
  (scanStartup schema argv).map
    (fun p => ⟨mkOptions schema (buildExplicit schema p.1), p.2⟩)

/-- Decides whether every token of the startup region of `argv` matches a
declared startup-flag syntax (the region ending at `--`, at the first
non-flag token, or at the end of the vector). -/
def startupRegionOk (schema : Schema) : List String → Bool
  | [] => true
  | [t] =>
    match classifyToken schema t with
    | .terminator => true
    | .commandTok => true
    | .violation => false
    | .flagInline _ => true
    | .flagSeparate _ => false
  | t :: u :: rest =>
    match classifyToken schema t with
    | .terminator => true
    | .commandTok => true
    | .violation => false
    | .flagInline _ => startupRegionOk schema (u :: rest)
    | .flagSeparate _ => startupRegionOk schema rest

/-- Decides whether a token list consists entirely of well-formed declared
startup flags (with any separate value tokens included): a pure flag region
with no terminator and no command token. -/
def flagsOnly (schema : Schema) : List String → Bool
  | [] => true
  | [t] =>
    match classifyToken schema t with
    | .flagInline _ => true
    | _ => false
  | t :: u :: rest =>
    match classifyToken schema t with
    | .flagInline _ => flagsOnly schema (u :: rest)
    | .flagSeparate _ => flagsOnly schema rest
    | _ => false

/-- The ordered raw values supplied for flag `n` in an assignment list. -/
def suppliedRaw (n : String) : List Assignment → List (Option String)
  | [] => []
  | a :: rest => if a.1 = n then a.2 :: suppliedRaw n rest else suppliedRaw n rest

/-- The spec's multiplicity rule, stated independently of the fold: a
repeatable flag resolves to all supplied values in order; any other flag
resolves to its last supplied occurrence; no occurrence resolves to
nothing. -/
def resolveOccs (s : OptionSpec) (occs : List (Option String)) : Option OptionValue :=
  match s.kind with
  | .repeated =>
    if occs = [] then none else some (.strs (occs.map (fun o => o.getD "")))
  | _ => occs.getLast?.map (interpValue s)

/-- The values gathered so far for a repeatable flag (empty when none were
gathered). -/
def prevStrs : Option OptionValue → List String
  | some (.strs l) => l
  | _ => []

/-- A small concrete schema used to exercise the classifier on concrete
argument vectors: a boolean flag, a single-valued flag and a repeatable
flag. -/
def schemaEx : Schema :=
  [⟨"verbose", .boolean, .bool false⟩,
   ⟨"output_base", .single, .str "/default"⟩,
   ⟨"host_jvm_args", .repeated, .strs []⟩]

/-! ### Workspace Locator (modelled from the spec §4.2) -/

/-- A directory path, as its component list with the deepest component
first; `[]` is the filesystem root.  The parent of `c :: p` is `p`, and the
ancestor chain of `p` (itself included) is `p.tails`. -/
abbrev Path := List String

/-- Modelled from the spec: walk upward from the starting directory,
returning the nearest ancestor (itself included) in which the workspace
marker is present, or `none` when the chain up to the filesystem root has
no marker.  `fs q = true` means directory `q` contains the marker. -/
def findRoot (fs : Path → Bool) : Path → Option Path
  | [] => if fs [] then some [] else none
  | p@(_ :: parent) => if fs p then some p else findRoot fs parent

/-- `WorkspaceRoot`: root path, derived output-area and install-area paths,
and the "has workspace" flag. -/
structure WorkspaceRoot where
  root : Path
  outputArea : Path
  installArea : Path
  hasWorkspace : Bool
  deriving DecidableEq, Repr

/-- Modelled from the spec: a stable textual digest of the resolved root
combined with the invoking user identity, from which the output-area and
install-area paths are derived deterministically. -/
def areaDigest (user : String) (root : Path) : String :=
  String.intercalate "-" (user :: root)

/-- Derived output-area path. -/
def outputAreaOf (user : String) (root : Path) : Path :=
  ["out-" ++ areaDigest user root]

/-- Derived install-area path. -/
def installAreaOf (user : String) (root : Path) : Path :=
  ["install-" ++ areaDigest user root]

/-- Modelled from the spec: `resolve(startingDir) → WorkspaceRoot`.  The
nearest marker-bearing ancestor wins; when no marker is found the result
has `hasWorkspace = false` rather than failing. -/
def resolve (fs : Path → Bool) (user : String) (startingDir : Path) : WorkspaceRoot :=
  match findRoot fs startingDir with
  | some r => ⟨r, outputAreaOf user r, installAreaOf user r, true⟩
  | none =>
    ⟨startingDir, outputAreaOf user startingDir, installAreaOf user startingDir, false⟩

/-! ### Session Dispatcher (modelled from the spec §4.4/§5) -/

/-- Failure conditions of the dispatcher. -/
inductive FailReason
  | LockContention
  | ServerSpawnFailure
  | ServerUnreachable
  | Interrupted
  deriving DecidableEq, Repr

/-- Dispatcher states:
`Idle → Locating → Connecting → (Spawning) → Dispatching → Completed | Failed`. -/
inductive DState
  | Idle
  | Locating
  | Connecting
  | Spawning
  | Dispatching
  | Completed (code : Nat)
  | Failed (r : FailReason)
  deriving DecidableEq, Repr

/-- The states from `Locating` through `Dispatching`: the region a client
may occupy only while holding the output-area lock. -/
def DState.isActive : DState → Bool
  | .Locating => true
  | .Connecting => true
  | .Spawning => true
  | .Dispatching => true
  | _ => false

/-- One client invocation of the dispatcher: its state and its remaining
lock-wait retry budget. -/
structure Client where
  st : DState
  retries : Nat
  deriving DecidableEq, Repr

/-- Two concurrent client invocations targeting the same output area, plus
the output-area mutual-exclusion lock (`some i` = held by client `i`). -/
structure Sys where
  c0 : Client
  c1 : Client
  lock : Option Bool
  deriving DecidableEq, Repr

/-- The client with index `i`. -/
def Sys.client (s : Sys) : Bool → Client
  | false => s.c0
  | true => s.c1

/-- Replace client `i`. -/
def Sys.withClient (s : Sys) : Bool → Client → Sys
  | false, cl => ⟨cl, s.c1, s.lock⟩
  | true, cl => ⟨s.c0, cl, s.lock⟩

/-- Replace the lock state. -/
def Sys.withLock (s : Sys) (l : Option Bool) : Sys := ⟨s.c0, s.c1, l⟩

/-- Modelled from the spec: the dispatcher transition relation.
`Idle → Locating` acquires the lock when free; a blocked client waits with
a strictly decreasing retry budget and fails with `LockContention` once the
budget is exhausted; `Spawning` may time out into
`Failed ServerSpawnFailure` releasing the lock; completion and interruption
also release the lock. -/
inductive Step : Sys → Sys → Prop
  | acquire (s : Sys) (i : Bool) :
      (s.client i).st = .Idle → s.lock = none →
      Step s ((s.withClient i ⟨.Locating, (s.client i).retries⟩).withLock (some i))
  | wait (s : Sys) (i : Bool) (n : Nat) :
      (s.client i).st = .Idle → s.lock ≠ none → (s.client i).retries = n + 1 →
      Step s (s.withClient i ⟨.Idle, n⟩)
  | contention (s : Sys) (i : Bool) :
      (s.client i).st = .Idle → s.lock ≠ none → (s.client i).retries = 0 →
      Step s (s.withClient i ⟨.Failed .LockContention, 0⟩)
  | toConnecting (s : Sys) (i : Bool) :
      (s.client i).st = .Locating →
      Step s (s.withClient i ⟨.Connecting, (s.client i).retries⟩)
  | connectOk (s : Sys) (i : Bool) :
      (s.client i).st = .Connecting →
      Step s (s.withClient i ⟨.Dispatching, (s.client i).retries⟩)
  | connectMiss (s : Sys) (i : Bool) :
      (s.client i).st = .Connecting →
      Step s (s.withClient i ⟨.Spawning, (s.client i).retries⟩)
  | spawnOk (s : Sys) (i : Bool) :
      (s.client i).st = .Spawning →
      Step s (s.withClient i ⟨.Dispatching, (s.client i).retries⟩)
  | spawnTimeout (s : Sys) (i : Bool) :
      (s.client i).st = .Spawning →
      Step s ((s.withClient i ⟨.Failed .ServerSpawnFailure, (s.client i).retries⟩).withLock none)
  | complete (s : Sys) (i : Bool) (code : Nat) :
      (s.client i).st = .Dispatching →
      Step s ((s.withClient i ⟨.Completed code, (s.client i).retries⟩).withLock none)
  | interrupt (s : Sys) (i : Bool) :
      (s.client i).st.isActive = true →
      Step s ((s.withClient i ⟨.Failed .Interrupted, (s.client i).retries⟩).withLock none)

/-- Initial system: both invocations idle with their retry budgets, lock
free. -/
def initSys (r0 r1 : Nat) : Sys := ⟨⟨.Idle, r0⟩, ⟨.Idle, r1⟩, none⟩

/-- Reachability under the dispatcher transition relation. -/
def Reachable (s0 s : Sys) : Prop := Relation.ReflTransGen Step s0 s

/-- The lock discipline invariant: exactly the clients in the
`Locating`–`Dispatching` region hold the lock, and the lock records its
holder. -/
def LockInv (s : Sys) : Prop :=
  (∀ i : Bool, (s.client i).st.isActive = true → s.lock = some i) ∧
  (∀ i : Bool, s.lock = some i → (s.client i).st.isActive = true)

/-! ### Entry points, embedded from `src/main/cpp/main.cc`, and the
single-invocation pipeline they wire together -/

/-- The run environment of one invocation: the schema compiled into the
binary, the filesystem marker predicate, user identity, working directory,
and the observable conditions of the session handoff (lock availability,
server reachability, spawn success, the server-reported exit code), plus
the clock value at the end of the run. -/
structure Env where
  schema : Schema
  fs : Path → Bool
  user : String
  cwd : Path
  lockFree : Bool
  serverReachable : Bool
  spawnSucceeds : Bool
  serverExit : Nat
  endClock : Nat

/-- Exit code of a terminal dispatcher state: the server-reported code is
passed through verbatim; failures map to the fixed taxonomy. -/
def exitCodeOf : DState → Nat
  | .Completed code => code
  | .Failed .LockContention => 9
  | .Failed .ServerSpawnFailure => 37
  | .Failed .ServerUnreachable => 37
  | .Failed .Interrupted => 8
  | _ => 0

/-- Exit code for a client-side classification/validation error. -/
def classificationExitCode : Nat := 2

/-- Modelled from the spec: the deterministic dispatcher trajectory of one
invocation given the observable session conditions. -/
def dispatchTrace (env : Env) : List DState :=
  if env.lockFree then
    if env.serverReachable then
      [.Idle, .Locating, .Connecting, .Dispatching, .Completed env.serverExit]
    else if env.spawnSucceeds then
      [.Idle, .Locating, .Connecting, .Spawning, .Dispatching, .Completed env.serverExit]
    else
      [.Idle, .Locating, .Connecting, .Spawning, .Failed .ServerSpawnFailure]
  else
    [.Idle, .Failed .LockContention]

/-- The observable outcome of one invocation: the classification result,
the resolved workspace (absent when classification failed client-side),
the dispatcher trajectory (empty when classification failed client-side),
the process exit code, and the reported elapsed wall time. -/
structure RunResult where
  classification : Except ClassificationError ClassifyResult
  workspace : Option WorkspaceRoot
  dispatcherStates : List DState
  exitCode : Nat
  elapsedMs : Nat
  deriving Repr

/-- Modelled from the spec: `blaze::Main` — classify the argument vector;
a classification error is surfaced immediately, before any workspace
probing or server interaction; otherwise resolve the workspace, run the
dispatcher and map the outcome to an exit code.  The start timestamp is
used only to report elapsed wall time. -/
def blazeMain (env : Env) (argv : List String) (start_time : Nat) : RunResult :=
  match classify env.schema argv with
  | .error e => ⟨.error e, none, [], classificationExitCode, env.endClock - start_time⟩
  | .ok r =>
    let ws := resolve env.fs env.user env.cwd
    let tr := dispatchTrace env
    ⟨.ok r, some ws, tr, exitCodeOf (tr.getLastD .Idle), env.endClock - start_time⟩

/-- Embedded from `main.cc`: `main_impl` records the monotonic start
timestamp first, then constructs the workspace layout, startup-option
schema and option processor, and calls `blaze::Main` with them and the
recorded timestamp. -/
def main_impl (env : Env) (argv : List String) (clock : Nat) : RunResult :=
  let start_time := clock
  blazeMain env argv start_time

/-- Embedded from `main.cc`: the POSIX entry point returns
`main_impl(argc, argv)` unmodified. -/
def posixMain (env : Env) (argv : List String) (clock : Nat) : RunResult :=
  main_impl env argv clock

/-- Embedded from `main.cc`: the Windows entry point converts each
wide-character argument with `WstringToCstring` (an external collaborator,
passed here as the conversion function `conv`), preserving count and
order, and returns `main_impl` on the converted vector unmodified. -/
def wmain (conv : List Nat → String) (env : Env) (wargv : List (List Nat))
    (clock : Nat) : RunResult :=
  let args := wargv.map conv
  main_impl env args clock

/-! ### Unfolding lemmas for the classifier scan -/

lemma scanStartup_nil (schema : Schema) : scanStartup schema [] = .ok ([], none) := rfl

lemma scanStartup_term_nil (schema : Schema) (t : String)
    (h : classifyToken schema t = .terminator) :
    scanStartup schema [t] = .ok ([], none) := by
  simp [scanStartup, h]

lemma scanStartup_term (schema : Schema) (t c : String) (args : List String)
    (h : classifyToken schema t = .terminator) :
    scanStartup schema (t :: c :: args) = .ok ([], some ⟨c, args⟩) := by
  simp [scanStartup, h]

lemma scanStartup_cmdTok (schema : Schema) (t : String) (rest : List String)
    (h : classifyToken schema t = .commandTok) :
    scanStartup schema (t :: rest) = .ok ([], some ⟨t, rest⟩) := by
  cases rest <;> simp [scanStartup, h]

lemma scanStartup_violation (schema : Schema) (t : String) (rest : List String)
    (h : classifyToken schema t = .violation) :
    scanStartup schema (t :: rest) = .error (.SchemaViolation t) := by
  cases rest <;> simp [scanStartup, h]

lemma scanStartup_flagInline (schema : Schema) (t : String) (rest : List String)
    (a : Assignment) (h : classifyToken schema t = .flagInline a) :
    scanStartup schema (t :: rest) =
      (scanStartup schema rest).map (fun p => (a :: p.1, p.2)) := by
  cases rest <;> simp [scanStartup, h, Except.map]

lemma scanStartup_flagSep_end (schema : Schema) (t : String) (n : String)
    (h : classifyToken schema t = .flagSeparate n) :
    scanStartup schema [t] = .error (.SchemaViolation t) := by
  simp [scanStartup, h]

lemma scanStartup_flagSep (schema : Schema) (t v : String) (rest2 : List String)
    (n : String) (h : classifyToken schema t = .flagSeparate n) :
    scanStartup schema (t :: v :: rest2) =
      (scanStartup schema rest2).map (fun p => ((n, some v) :: p.1, p.2)) := by
  simp [scanStartup, h]

lemma regionOk_nil (schema : Schema) : startupRegionOk schema [] = true := rfl

lemma regionOk_term (schema : Schema) (t : String) (rest : List String)
    (h : classifyToken schema t = .terminator) :
    startupRegionOk schema (t :: rest) = true := by
  cases rest <;> simp [startupRegionOk, h]

lemma regionOk_cmdTok (schema : Schema) (t : String) (rest : List String)
    (h : classifyToken schema t = .commandTok) :
    startupRegionOk schema (t :: rest) = true := by
  cases rest <;> simp [startupRegionOk, h]

lemma regionOk_violation (schema : Schema) (t : String) (rest : List String)
    (h : classifyToken schema t = .violation) :
    startupRegionOk schema (t :: rest) = false := by
  cases rest <;> simp [startupRegionOk, h]

lemma regionOk_flagInline (schema : Schema) (t : String) (rest : List String)
    (a : Assignment) (h : classifyToken schema t = .flagInline a) :
    startupRegionOk schema (t :: rest) = startupRegionOk schema rest := by
  cases rest <;> simp [startupRegionOk, h]

lemma regionOk_flagSep_end (schema : Schema) (t : String) (n : String)
    (h : classifyToken schema t = .flagSeparate n) :
    startupRegionOk schema [t] = false := by
  simp [startupRegionOk, h]

lemma regionOk_flagSep (schema : Schema) (t v : String) (rest2 : List String)
    (n : String) (h : classifyToken schema t = .flagSeparate n) :
    startupRegionOk schema (t :: v :: rest2) = startupRegionOk schema rest2 := by
  simp [startupRegionOk, h]

lemma flagsOnly_nil (schema : Schema) : flagsOnly schema [] = true := rfl

lemma flagsOnly_flagInline (schema : Schema) (t : String) (rest : List String)
    (a : Assignment) (h : classifyToken schema t = .flagInline a) :
    flagsOnly schema (t :: rest) = flagsOnly schema rest := by
  cases rest <;> simp [flagsOnly, h]

lemma flagsOnly_flagSep (schema : Schema) (t v : String) (rest2 : List String)
    (n : String) (h : classifyToken schema t = .flagSeparate n) :
    flagsOnly schema (t :: v :: rest2) = flagsOnly schema rest2 := by
  simp [flagsOnly, h]

lemma flagsOnly_cons_elim (schema : Schema) (t : String) (rest : List String)
    (h : flagsOnly schema (t :: rest) = true) :
    (∃ a, classifyToken schema t = .flagInline a ∧ flagsOnly schema rest = true) ∨
    (∃ n v rest2, classifyToken schema t = .flagSeparate n ∧ rest = v :: rest2 ∧
      flagsOnly schema rest2 = true) := by
  cases hc : classifyToken schema t with
  | flagInline a =>
    rw [flagsOnly_flagInline schema t rest a hc] at h
    exact Or.inl ⟨a, rfl, h⟩
  | flagSeparate n =>
    cases rest with
    | nil => simp [flagsOnly, hc] at h
    | cons v rest2 =>
      rw [flagsOnly_flagSep schema t v rest2 n hc] at h
      exact Or.inr ⟨n, v, rest2, rfl, rfl, h⟩
  | terminator => cases rest <;> simp [flagsOnly, hc] at h
  | commandTok => cases rest <;> simp [flagsOnly, hc] at h
  | violation => cases rest <;> simp [flagsOnly, hc] at h

lemma scanStartup_ok_of_regionOk (schema : Schema) :
    ∀ argv, startupRegionOk schema argv = true →
      ∃ p, scanStartup schema argv = .ok p := by
  intro argv
  induction argv using scanStartup.induct schema with
  | case1 => intro _; exact ⟨([], none), rfl⟩
  | case2 t h => intro _; exact ⟨([], none), scanStartup_term_nil schema t h⟩
  | case3 t h => intro _; exact ⟨([], some ⟨t, []⟩), scanStartup_cmdTok schema t [] h⟩
  | case4 t h =>
    intro hok
    rw [regionOk_violation schema t [] h] at hok
    cases hok
  | case5 t a h =>
    intro _
    exact ⟨([a], none), by
      rw [scanStartup_flagInline schema t [] a h, scanStartup_nil]; rfl⟩
  | case6 t n h =>
    intro hok
    rw [regionOk_flagSep_end schema t n h] at hok
    cases hok
  | case7 t u rest h =>
    intro _
    exact ⟨([], some ⟨u, rest⟩), scanStartup_term schema t u rest h⟩
  | case8 t u rest h =>
    intro _
    exact ⟨([], some ⟨t, u :: rest⟩), scanStartup_cmdTok schema t (u :: rest) h⟩
  | case9 t u rest h =>
    intro hok
    rw [regionOk_violation schema t (u :: rest) h] at hok
    cases hok
  | case10 t u rest a h ih =>
    intro hok
    rw [regionOk_flagInline schema t (u :: rest) a h] at hok
    rcases ih hok with ⟨p, hp⟩
    exact ⟨(a :: p.1, p.2), by
      rw [scanStartup_flagInline schema t (u :: rest) a h, hp]; rfl⟩
  | case11 t u rest n h ih =>
    intro hok
    rw [regionOk_flagSep schema t u rest n h] at hok
    rcases ih hok with ⟨p, hp⟩
    exact ⟨((n, some u) :: p.1, p.2), by
      rw [scanStartup_flagSep schema t u rest n h, hp]; rfl⟩

/-! ### Lemmas about option-value resolution -/

lemma lookupSpec_of_mem (schema : Schema) (s : OptionSpec)
    (hnd : (schema.map OptionSpec.name).Nodup) (hs : s ∈ schema) :
    lookupSpec schema s.name = some s := by
  induction schema with
  | nil => cases hs
  | cons s0 rest ih =>
    rw [List.map_cons, List.nodup_cons] at hnd
    rcases List.mem_cons.mp hs with h | h
    · rw [← h]
      simp [lookupSpec]
    · have hmem : s.name ∈ rest.map OptionSpec.name := List.mem_map_of_mem _ h
      have hne : ¬s0.name = s.name := fun he => hnd.1 (he ▸ hmem)
      simp only [lookupSpec, hne, if_false]
      exact ih hnd.2 h

lemma appendRepeated_eq (v : String) (old : Option OptionValue) :
    appendRepeated v old = .strs (prevStrs old ++ [v]) := by
  cases old with
  | none => rfl
  | some ov => cases ov <;> rfl

lemma lookupOpt_updateAssoc_self (m : List (String × OptionValue)) (k : String)
    (f : Option OptionValue → OptionValue) :
    lookupOpt (updateAssoc m k f) k = some (f (lookupOpt m k)) := by
  induction m with
  | nil => simp [updateAssoc, lookupOpt]
  | cons kv rest ih =>
    obtain ⟨k', v⟩ := kv
    by_cases hk : k' = k
    · subst hk
      simp [updateAssoc, lookupOpt]
    · simp [updateAssoc, lookupOpt, hk, ih]

lemma lookupOpt_updateAssoc_other (m : List (String × OptionValue)) (k k' : String)
    (f : Option OptionValue → OptionValue) (hne : ¬k = k') :
    lookupOpt (updateAssoc m k f) k' = lookupOpt m k' := by
  induction m with
  | nil => simp [updateAssoc, lookupOpt, hne]
  | cons kv rest ih =>
    obtain ⟨k0, v⟩ := kv
    by_cases hk : k0 = k
    · subst hk
      simp [updateAssoc, lookupOpt, hne]
    · simp [updateAssoc, lookupOpt, hk, ih]

lemma applyAssignment_of_spec (schema : Schema) (m : List (String × OptionValue))
    (a : Assignment) (s : OptionSpec) (hs : lookupSpec schema a.1 = some s) :
    applyAssignment schema m a =
      if s.kind = .repeated then updateAssoc m a.1 (appendRepeated (a.2.getD ""))
      else updateAssoc m a.1 (fun _ => interpValue s a.2) := by
  unfold applyAssignment
  rw [hs]
  cases hk : s.kind <;> simp [hk]

lemma lookupOpt_applyAssignment_other (schema : Schema) (m : List (String × OptionValue))
    (a : Assignment) (k : String) (hne : ¬a.1 = k) :
    lookupOpt (applyAssignment schema m a) k = lookupOpt m k := by
  cases h : lookupSpec schema a.1 with
  | none =>
    unfold applyAssignment
    rw [h]
  | some s =>
    rw [applyAssignment_of_spec schema m a s h]
    by_cases hk : s.kind = .repeated
    · rw [if_pos hk]
      exact lookupOpt_updateAssoc_other _ _ _ _ hne
    · rw [if_neg hk]
      exact lookupOpt_updateAssoc_other _ _ _ _ hne

lemma lookupOpt_fold_repeated (schema : Schema) (n : String) (s : OptionSpec)
    (hs : lookupSpec schema n = some s) (hk : s.kind = .repeated) :
    ∀ (asgns : List Assignment) (m : List (String × OptionValue)),
      lookupOpt (asgns.foldl (applyAssignment schema) m) n =
        if suppliedRaw n asgns = [] then lookupOpt m n
        else some (.strs (prevStrs (lookupOpt m n) ++
          (suppliedRaw n asgns).map (fun o => o.getD ""))) := by
  intro asgns
  induction asgns with
  | nil => intro m; simp [suppliedRaw]
  | cons a rest ih =>
    intro m
    rw [List.foldl_cons]
    by_cases ha : a.1 = n
    · have happ : applyAssignment schema m a =
          updateAssoc m n (appendRepeated (a.2.getD "")) := by
        rw [applyAssignment_of_spec schema m a s (ha ▸ hs), if_pos hk, ha]
      rw [happ, ih]
      have hsup : suppliedRaw n (a :: rest) = a.2 :: suppliedRaw n rest := by
        simp [suppliedRaw, ha]
      have hlook : lookupOpt (updateAssoc m n (appendRepeated (a.2.getD ""))) n =
          some (.strs (prevStrs (lookupOpt m n) ++ [a.2.getD ""])) := by
        rw [lookupOpt_updateAssoc_self, appendRepeated_eq]
      by_cases hr : suppliedRaw n rest = []
      · rw [if_pos hr, hsup, if_neg (by simp), hlook, hr]
        simp
      · rw [if_neg hr, hsup, if_neg (by simp), hlook]
        simp [prevStrs]
    · have happ : lookupOpt (applyAssignment schema m a) n = lookupOpt m n :=
        lookupOpt_applyAssignment_other schema m a n ha
      have hsup : suppliedRaw n (a :: rest) = suppliedRaw n rest := by
        simp [suppliedRaw, ha]
      rw [ih, happ, hsup]

lemma lookupOpt_fold_single (schema : Schema) (n : String) (s : OptionSpec)
    (hs : lookupSpec schema n = some s) (hk : ¬s.kind = .repeated) :
    ∀ (asgns : List Assignment) (m : List (String × OptionValue)),
      lookupOpt (asgns.foldl (applyAssignment schema) m) n =
        match (suppliedRaw n asgns).getLast? with
        | some r => some (interpValue s r)
        | none => lookupOpt m n := by
  intro asgns
  induction asgns with
  | nil => intro m; simp [suppliedRaw]
  | cons a rest ih =>
    intro m
    rw [List.foldl_cons]
    by_cases ha : a.1 = n
    · have happ : applyAssignment schema m a =
          updateAssoc m n (fun _ => interpValue s a.2) := by
        rw [applyAssignment_of_spec schema m a s (ha ▸ hs), if_neg hk, ha]
      rw [happ, ih]
      have hsup : suppliedRaw n (a :: rest) = a.2 :: suppliedRaw n rest := by
        simp [suppliedRaw, ha]
      rw [hsup]
      cases hrest : suppliedRaw n rest with
      | nil =>
        simp [lookupOpt_updateAssoc_self]
      | cons b l =>
        rw [List.getLast?_cons_cons]
        obtain ⟨r, hr⟩ := Option.isSome_iff_exists.mp
          (List.getLast?_isSome.mpr (List.cons_ne_nil b l))
        rw [hr]
    · have happ : lookupOpt (applyAssignment schema m a) n = lookupOpt m n :=
        lookupOpt_applyAssignment_other schema m a n ha
      have hsup : suppliedRaw n (a :: rest) = suppliedRaw n rest := by
        simp [suppliedRaw, ha]
      rw [ih, happ, hsup]

lemma lookupOpt_buildExplicit (schema : Schema) (n : String) (s : OptionSpec)
    (hs : lookupSpec schema n = some s) (asgns : List Assignment) :
    lookupOpt (buildExplicit schema asgns) n = resolveOccs s (suppliedRaw n asgns) := by
  by_cases hk : s.kind = .repeated
  · rw [buildExplicit, lookupOpt_fold_repeated schema n s hs hk asgns []]
    unfold resolveOccs
    rw [hk]
    by_cases hr : suppliedRaw n asgns = []
    · simp [hr, lookupOpt]
    · simp [hr, lookupOpt, prevStrs]
  · rw [buildExplicit, lookupOpt_fold_single schema n s hs hk asgns []]
    unfold resolveOccs
    cases hkk : s.kind with
    | boolean =>
      cases hrest : (suppliedRaw n asgns).getLast? <;> simp [lookupOpt]
    | single =>
      cases hrest : (suppliedRaw n asgns).getLast? <;> simp [lookupOpt]
    | repeated => exact absurd hkk hk

lemma lookupOpt_mkOptions (schema : Schema) (e : List (String × OptionValue))
    (s : OptionSpec) (hnd : (schema.map OptionSpec.name).Nodup) (hs : s ∈ schema) :
    lookupOpt (mkOptions schema e) s.name = some ((lookupOpt e s.name).getD s.dflt) := by
  induction schema with
  | nil => cases hs
  | cons s0 rest ih =>
    rw [List.map_cons, List.nodup_cons] at hnd
    rcases List.mem_cons.mp hs with h | h
    · rw [← h]
      simp [mkOptions, lookupOpt]
    · have hmem : s.name ∈ rest.map OptionSpec.name := List.mem_map_of_mem _ h
      have hne : ¬s0.name = s.name := fun he => hnd.1 (he ▸ hmem)
      simp only [mkOptions, List.map_cons, lookupOpt, hne, if_false]
      exact ih hnd.2 h

/-! ### Lemmas about the Workspace Locator -/

lemma findRoot_suffix_marker (fs : Path → Bool) :
    ∀ p r, findRoot fs p = some r → r <:+ p ∧ fs r = true := by
  intro p
  induction p with
  | nil =>
    intro r h
    simp only [findRoot] at h
    by_cases hfs : fs [] = true
    · rw [if_pos hfs] at h
      cases h
      exact ⟨List.suffix_refl _, hfs⟩
    · rw [if_neg hfs] at h
      cases h
  | cons a parent ih =>
    intro r h
    simp only [findRoot] at h
    by_cases hfs : fs (a :: parent) = true
    · rw [if_pos hfs] at h
      cases h
      exact ⟨List.suffix_refl _, hfs⟩
    · rw [if_neg hfs] at h
      rcases ih r h with ⟨hm, hr⟩
      exact ⟨hm.trans (List.suffix_cons a parent), hr⟩

lemma findRoot_nearest (fs : Path → Bool) :
    ∀ p r, findRoot fs p = some r →
      ∀ q, q <:+ p → fs q = true → q.length ≤ r.length := by
  intro p
  induction p with
  | nil =>
    intro r h q hq hfq
    have hq' : q = [] := List.suffix_nil.mp hq
    simp [hq']
  | cons a parent ih =>
    intro r h q hq hfq
    simp only [findRoot] at h
    by_cases hfs : fs (a :: parent) = true
    · rw [if_pos hfs] at h
      cases h
      exact hq.length_le
    · rw [if_neg hfs] at h
      rcases List.suffix_cons_iff.mp hq with hq' | hq'
      · rw [hq'] at hfq
        exact absurd hfq hfs
      · exact ih r h q hq' hfq

lemma findRoot_none (fs : Path → Bool) :
    ∀ p, findRoot fs p = none ↔ ∀ q, q <:+ p → fs q = false := by
  intro p
  induction p with
  | nil =>
    constructor
    · intro h q hq
      have hq' : q = [] := List.suffix_nil.mp hq
      simp only [findRoot] at h
      by_cases hfs : fs [] = true
      · rw [if_pos hfs] at h
        cases h
      · rw [hq']
        exact Bool.not_eq_true _ |>.mp hfs
    · intro h
      have := h [] (List.suffix_refl _)
      simp [findRoot, this]
  | cons a parent ih =>
    constructor
    · intro h q hq
      simp only [findRoot] at h
      by_cases hfs : fs (a :: parent) = true
      · rw [if_pos hfs] at h
        cases h
      · rw [if_neg hfs] at h
        rcases List.suffix_cons_iff.mp hq with hq' | hq'
        · rw [hq']
          exact Bool.not_eq_true _ |>.mp hfs
        · exact (ih.mp h) q hq'
    · intro h
      have hfs : fs (a :: parent) = false := h (a :: parent) (List.suffix_refl _)
      simp only [findRoot, hfs]
      simp only [Bool.false_eq_true, if_false]
      exact ih.mpr (fun q hq => h q (hq.trans (List.suffix_cons a parent)))

lemma findRoot_congr (fs1 fs2 : Path → Bool) :
    ∀ p, (∀ q, q <:+ p → fs1 q = fs2 q) → findRoot fs1 p = findRoot fs2 p := by
  intro p
  induction p with
  | nil =>
    intro h
    have h0 : fs1 [] = fs2 [] := h [] (List.suffix_refl _)
    simp [findRoot, h0]
  | cons a parent ih =>
    intro h
    have h0 : fs1 (a :: parent) = fs2 (a :: parent) := h (a :: parent) (List.suffix_refl _)
    have hrec : findRoot fs1 parent = findRoot fs2 parent :=
      ih (fun q hq => h q (hq.trans (List.suffix_cons a parent)))
    simp only [findRoot, h0, hrec]

/-- Claim C4: `resolve` returns the nearest marker-bearing ancestor (the starting
directory itself first, walking upward) when one exists; when no ancestor
up to the filesystem root has the marker, it returns a `WorkspaceRoot`
whose "has workspace" flag is false rather than failing. -/
theorem resolve_nearest_marker (fs : Path → Bool) (user : String) (p : Path) :
    ((∃ q, q <:+ p ∧ fs q = true) →
      (resolve fs user p).hasWorkspace = true ∧
      (resolve fs user p).root <:+ p ∧
      fs (resolve fs user p).root = true ∧
      ∀ q, q <:+ p → fs q = true → q.length ≤ (resolve fs user p).root.length) ∧
    ((∀ q, q <:+ p → fs q = false) → (resolve fs user p).hasWorkspace = false) := by
  constructor
  · rintro ⟨q, hq, hfq⟩
    cases h : findRoot fs p with
    | none =>
      have := (findRoot_none fs p).mp h q hq
      rw [hfq] at this
      cases this
    | some r =>
      rcases findRoot_suffix_marker fs p r h with ⟨hm, hr⟩
      refine ⟨?_, ?_, ?_, ?_⟩
      · simp [resolve, h]
      · simpa [resolve, h] using hm
      · simpa [resolve, h] using hr
      · intro q' hq' hfq'
        simpa [resolve, h] using findRoot_nearest fs p r h q' hq' hfq'
  · intro h
    have hn : findRoot fs p = none := (findRoot_none fs p).mpr h
    simp [resolve, hn]

/-- Witness for C4 at a concrete filesystem: the marker sits at `["ws"]`
and at `["deep", "ws"]`; resolving from `["deep", "ws"]` picks the nearer
(deeper) one. -/
theorem resolve_nearest_marker_witness :
    (∃ q, q <:+ (["deep", "ws"] : Path) ∧
        (fun q => decide (q = ["deep", "ws"] ∨ q = ["ws"])) q = true) ∧
      (Bazel.resolve (fun q => decide (q = ["deep", "ws"] ∨ q = ["ws"])) "u"
          ["deep", "ws"]).root = ["deep", "ws"] := by
  refine ⟨⟨["deep", "ws"], List.suffix_refl _, by decide⟩, ?_⟩
  have := (resolve_nearest_marker
    (fun q => decide (q = ["deep", "ws"] ∨ q = ["ws"])) "u" ["deep", "ws"]).1
    ⟨["deep", "ws"], List.suffix_refl _, by decide⟩
  decide

/-- Claim C7: workspace resolution is deterministic and idempotent — two calls
from the same starting directory against filesystem states that agree on
the ancestor chain return equal `WorkspaceRoot` values, including equal
derived output-area and install-area paths. -/
theorem resolve_deterministic (fs1 fs2 : Path → Bool) (user : String) (p : Path)
    (h : ∀ q, q <:+ p → fs1 q = fs2 q) :
    resolve fs1 user p = resolve fs2 user p ∧
    (resolve fs1 user p).outputArea = (resolve fs2 user p).outputArea ∧
    (resolve fs1 user p).installArea = (resolve fs2 user p).installArea := by
  have hr : findRoot fs1 p = findRoot fs2 p := findRoot_congr fs1 fs2 p h
  have : resolve fs1 user p = resolve fs2 user p := by
    simp only [resolve, hr]
  exact ⟨this, by rw [this], by rw [this]⟩

/-- Witness for C7: two calls with the same marker predicate from
`["proj", "home"]` agree. -/
theorem resolve_deterministic_witness :
    (Bazel.resolve (fun q => decide (q = ["home"])) "u" ["proj", "home"]) =
      (Bazel.resolve (fun q => decide (q = ["home"])) "u" ["proj", "home"]) :=
  (resolve_deterministic (fun q => decide (q = ["home"]))
    (fun q => decide (q = ["home"])) "u" ["proj", "home"] (fun q _ => rfl)).1

/-! ### Entry-point theorems -/

/-- Claim C9: the monotonic start timestamp recorded first in `main_impl` is
carried through only for elapsed-time reporting: runs differing only in
the recorded start-timestamp value have the same classification result,
the same workspace, the same dispatcher state sequence and the same exit
code. -/
theorem start_time_noninterference (env : Env) (argv : List String) (t1 t2 : Nat) :
    (main_impl env argv t1).classification = (main_impl env argv t2).classification ∧
    (main_impl env argv t1).workspace = (main_impl env argv t2).workspace ∧
    (main_impl env argv t1).dispatcherStates = (main_impl env argv t2).dispatcherStates ∧
    (main_impl env argv t1).exitCode = (main_impl env argv t2).exitCode := by
  cases h : classify env.schema argv <;>
    simp [main_impl, blazeMain, h]

/-- Claim C10: the Windows entry point is the POSIX one up to per-argument string
conversion — `wmain` calls `main_impl` with exactly as many arguments as
the wide vector has, each the conversion of the corresponding wide
argument in order, and returns the result unmodified, just as the POSIX
entry point returns `main_impl` unmodified. -/
theorem wmain_refines_posix_main (conv : List Nat → String) (env : Env)
    (wargv : List (List Nat)) (clock : Nat) :
    wmain conv env wargv clock = main_impl env (wargv.map conv) clock ∧
    (wargv.map conv).length = wargv.length ∧
    (∀ i : Fin wargv.length,
      (wargv.map conv).get (Fin.cast (by simp) i) = conv (wargv.get i)) ∧
    posixMain env (wargv.map conv) clock = main_impl env (wargv.map conv) clock := by
  refine ⟨rfl, by simp, ?_, rfl⟩
  intro i
  simp

lemma scanStartup_command_suffix (schema : Schema) :
    ∀ argv asgns c, scanStartup schema argv = .ok (asgns, some c) →
      ∃ pre, argv = pre ++ c.name :: c.args ∧
        ∀ args2, scanStartup schema (pre ++ c.name :: args2) =
          .ok (asgns, some ⟨c.name, args2⟩) := by
  intro argv
  induction argv using scanStartup.induct schema with
  | case1 =>
    intro asgns c h
    rw [scanStartup_nil] at h
    simp at h
  | case2 t h =>
    intro asgns c hscan
    rw [scanStartup_term_nil schema t h] at hscan
    simp at hscan
  | case3 t h =>
    intro asgns c hscan
    rw [scanStartup_cmdTok schema t [] h] at hscan
    simp only [Except.ok.injEq, Prod.mk.injEq, Option.some.injEq] at hscan
    obtain ⟨ha, hc⟩ := hscan
    subst ha
    subst hc
    exact ⟨[], rfl, fun args2 => scanStartup_cmdTok schema t args2 h⟩
  | case4 t h =>
    intro asgns c hscan
    rw [scanStartup_violation schema t [] h] at hscan
    simp at hscan
  | case5 t a h =>
    intro asgns c hscan
    rw [scanStartup_flagInline schema t [] a h, scanStartup_nil] at hscan
    simp [Except.map] at hscan
  | case6 t n h =>
    intro asgns c hscan
    rw [scanStartup_flagSep_end schema t n h] at hscan
    simp at hscan
  | case7 t u rest h =>
    intro asgns c hscan
    rw [scanStartup_term schema t u rest h] at hscan
    simp only [Except.ok.injEq, Prod.mk.injEq, Option.some.injEq] at hscan
    obtain ⟨ha, hc⟩ := hscan
    subst ha
    subst hc
    exact ⟨[t], rfl, fun args2 => scanStartup_term schema t u args2 h⟩
  | case8 t u rest h =>
    intro asgns c hscan
    rw [scanStartup_cmdTok schema t (u :: rest) h] at hscan
    simp only [Except.ok.injEq, Prod.mk.injEq, Option.some.injEq] at hscan
    obtain ⟨ha, hc⟩ := hscan
    subst ha
    subst hc
    exact ⟨[], rfl, fun args2 => scanStartup_cmdTok schema t args2 h⟩
  | case9 t u rest h =>
    intro asgns c hscan
    rw [scanStartup_violation schema t (u :: rest) h] at hscan
    simp at hscan
  | case10 t u rest a h ih =>
    intro asgns c hscan
    rw [scanStartup_flagInline schema t (u :: rest) a h] at hscan
    cases hrec : scanStartup schema (u :: rest) with
    | error e => rw [hrec] at hscan; simp [Except.map] at hscan
    | ok p =>
      obtain ⟨p1, p2⟩ := p
      rw [hrec] at hscan
      simp only [Except.map, Except.ok.injEq, Prod.mk.injEq] at hscan
      obtain ⟨ha, hc⟩ := hscan
      subst ha
      subst hc
      rcases ih p1 c hrec with ⟨pre, hpre, hrep⟩
      refine ⟨t :: pre, ?_, ?_⟩
      · rw [List.cons_append, ← hpre]
      · intro args2
        rw [List.cons_append,
          scanStartup_flagInline schema t (pre ++ c.name :: args2) a h,
          hrep args2]
        rfl
  | case11 t u rest n h ih =>
    intro asgns c hscan
    rw [scanStartup_flagSep schema t u rest n h] at hscan
    cases hrec : scanStartup schema rest with
    | error e => rw [hrec] at hscan; simp [Except.map] at hscan
    | ok p =>
      obtain ⟨p1, p2⟩ := p
      rw [hrec] at hscan
      simp only [Except.map, Except.ok.injEq, Prod.mk.injEq] at hscan
      obtain ⟨ha, hc⟩ := hscan
      subst ha
      subst hc
      rcases ih p1 c hrec with ⟨pre, hpre, hrep⟩
      refine ⟨t :: u :: pre, ?_, ?_⟩
      · rw [List.cons_append, List.cons_append, ← hpre]
      · intro args2
        rw [List.cons_append, List.cons_append,
          scanStartup_flagSep schema t u (pre ++ c.name :: args2) n h,
          hrep args2]
        rfl

/-! ### Lemmas about the dispatcher transition system -/

lemma client_withClient_same (s : Sys) (i : Bool) (cl : Client) :
    (s.withClient i cl).client i = cl := by
  cases i <;> rfl

lemma client_withClient_other (s : Sys) (i j : Bool) (cl : Client) (h : ¬i = j) :
    (s.withClient i cl).client j = s.client j := by
  cases i <;> cases j <;> first | rfl | exact absurd rfl h

lemma client_withLock (s : Sys) (l : Option Bool) (i : Bool) :
    (s.withLock l).client i = s.client i := by
  cases i <;> rfl

lemma lock_withClient (s : Sys) (i : Bool) (cl : Client) :
    (s.withClient i cl).lock = s.lock := by
  cases i <;> rfl

lemma lock_withLock (s : Sys) (l : Option Bool) : (s.withLock l).lock = l := rfl

lemma lockInv_withClient_active (s : Sys) (i : Bool) (cl : Client)
    (hinv : LockInv s) (hold : (s.client i).st.isActive = true)
    (hnew : cl.st.isActive = true) : LockInv (s.withClient i cl) := by
  obtain ⟨hA, hB⟩ := hinv
  constructor
  · intro j hj
    rw [lock_withClient]
    by_cases hij : i = j
    · subst hij
      exact hA i hold
    · rw [client_withClient_other _ _ _ _ hij] at hj
      exact hA j hj
  · intro j hj
    rw [lock_withClient] at hj
    by_cases hij : i = j
    · subst hij
      rw [client_withClient_same]
      exact hnew
    · rw [client_withClient_other _ _ _ _ hij]
      exact hB j hj

lemma lockInv_withClient_inactive (s : Sys) (i : Bool) (cl : Client)
    (hinv : LockInv s) (hold : (s.client i).st.isActive = false)
    (hnew : cl.st.isActive = false) : LockInv (s.withClient i cl) := by
  obtain ⟨hA, hB⟩ := hinv
  constructor
  · intro j hj
    rw [lock_withClient]
    by_cases hij : i = j
    · subst hij
      rw [client_withClient_same] at hj
      rw [hj] at hnew
      cases hnew
    · rw [client_withClient_other _ _ _ _ hij] at hj
      exact hA j hj
  · intro j hj
    rw [lock_withClient] at hj
    by_cases hij : i = j
    · subst hij
      have := hB i hj
      rw [this] at hold
      cases hold
    · rw [client_withClient_other _ _ _ _ hij]
      exact hB j hj

lemma lockInv_withClient_release (s : Sys) (i : Bool) (cl : Client)
    (hinv : LockInv s) (hold : (s.client i).st.isActive = true)
    (hnew : cl.st.isActive = false) :
    LockInv ((s.withClient i cl).withLock none) := by
  obtain ⟨hA, hB⟩ := hinv
  have hlock : s.lock = some i := hA i hold
  constructor
  · intro j hj
    rw [client_withLock] at hj
    by_cases hij : i = j
    · subst hij
      rw [client_withClient_same] at hj
      rw [hj] at hnew
      cases hnew
    · rw [client_withClient_other _ _ _ _ hij] at hj
      have hj2 := hA j hj
      rw [hlock] at hj2
      injection hj2 with hij2
      exact absurd hij2 hij
  · intro j hj
    rw [lock_withLock] at hj
    cases hj

lemma lockInv_step (s s' : Sys) (hinv : LockInv s) (hstep : Step s s') :
    LockInv s' := by
  cases hstep with
  | acquire i hidle hfree =>
    obtain ⟨hA, hB⟩ := hinv
    constructor
    · intro j hj
      rw [lock_withLock]
      rw [client_withLock] at hj
      by_cases hij : i = j
      · rw [hij]
      · rw [client_withClient_other _ _ _ _ hij] at hj
        rw [hA j hj] at hfree
        cases hfree
    · intro j hj
      rw [lock_withLock] at hj
      injection hj with hij
      subst hij
      rw [client_withLock, client_withClient_same]
      rfl
  | wait i n hidle hheld hret =>
    refine lockInv_withClient_inactive s i _ hinv ?_ rfl
    rw [hidle]
    rfl
  | contention i hidle hheld hret =>
    refine lockInv_withClient_inactive s i _ hinv ?_ rfl
    rw [hidle]
    rfl
  | toConnecting i hst =>
    refine lockInv_withClient_active s i _ hinv ?_ rfl
    rw [hst]
    rfl
  | connectOk i hst =>
    refine lockInv_withClient_active s i _ hinv ?_ rfl
    rw [hst]
    rfl
  | connectMiss i hst =>
    refine lockInv_withClient_active s i _ hinv ?_ rfl
    rw [hst]
    rfl
  | spawnOk i hst =>
    refine lockInv_withClient_active s i _ hinv ?_ rfl
    rw [hst]
    rfl
  | spawnTimeout i hst =>
    refine lockInv_withClient_release s i _ hinv ?_ rfl
    rw [hst]
    rfl
  | complete i code hst =>
    refine lockInv_withClient_release s i _ hinv ?_ rfl
    rw [hst]
    rfl
  | interrupt i hst =>
    exact lockInv_withClient_release s i _ hinv hst rfl

lemma lockInv_init (r0 r1 : Nat) : LockInv (initSys r0 r1) := by
  constructor
  · intro i hi
    cases i <;> simp [initSys, Sys.client, DState.isActive] at hi
  · intro i hi
    simp [initSys] at hi

lemma lockInv_reachable (r0 r1 : Nat) (s : Sys)
    (h : Reachable (initSys r0 r1) s) : LockInv s := by
  induction h with
  | refl => exact lockInv_init r0 r1
  | tail hsteps hstep ih => exact lockInv_step _ _ ih hstep

/-! ### Classifier theorems -/

/-- Claim C1: when every token of the startup region matches a declared
startup-flag syntax, classification succeeds, and the resulting
`ParsedStartupOptions` maps every declared flag to a value — the resolution
of the explicitly supplied occurrences when there are any, the schema
default otherwise — never leaving a declared flag absent. -/
theorem classify_total_and_defaulted (schema : Schema) (argv : List String)
    (hnd : (schema.map OptionSpec.name).Nodup)
    (hok : startupRegionOk schema argv = true) :
    ∃ asgns cmd, scanStartup schema argv = .ok (asgns, cmd) ∧
      classify schema argv = .ok ⟨mkOptions schema (buildExplicit schema asgns), cmd⟩ ∧
      ∀ s ∈ schema,
        lookupOpt (mkOptions schema (buildExplicit schema asgns)) s.name =
          some ((resolveOccs s (suppliedRaw s.name asgns)).getD s.dflt) := by
  rcases scanStartup_ok_of_regionOk schema argv hok with ⟨⟨asgns, cmd⟩, hp⟩
  refine ⟨asgns, cmd, hp, ?_, ?_⟩
  · unfold classify
    rw [hp]
    rfl
  · intro s hs
    rw [lookupOpt_mkOptions schema _ s hnd hs,
      lookupOpt_buildExplicit schema s.name s (lookupSpec_of_mem schema s hnd hs) asgns]

/-- Witness for C1 on the concrete schema and the vector
`--verbose --host_jvm_args=-Xm1 build x`. -/
theorem classify_total_and_defaulted_witness :
    (schemaEx.map OptionSpec.name).Nodup ∧
    startupRegionOk schemaEx ["--verbose", "--host_jvm_args=-Xm1", "build", "x"] = true ∧
    ∃ asgns cmd,
      scanStartup schemaEx ["--verbose", "--host_jvm_args=-Xm1", "build", "x"] =
        .ok (asgns, cmd) ∧
      classify schemaEx ["--verbose", "--host_jvm_args=-Xm1", "build", "x"] =
        .ok ⟨mkOptions schemaEx (buildExplicit schemaEx asgns), cmd⟩ ∧
      ∀ s ∈ schemaEx,
        lookupOpt (mkOptions schemaEx (buildExplicit schemaEx asgns)) s.name =
          some ((resolveOccs s (suppliedRaw s.name asgns)).getD s.dflt) :=
  ⟨by decide, by rfl,
    classify_total_and_defaulted schemaEx
      ["--verbose", "--host_jvm_args=-Xm1", "build", "x"] (by decide) (by rfl)⟩

/-- Claim C8: when the startup region supplies the same declared flag several
times, a repeatable flag accumulates all supplied values in order, and a
non-repeatable flag resolves to the value of its last occurrence — the
later occurrence overriding every earlier one. -/
theorem startup_flag_multiplicity (schema : Schema) (argv : List String)
    (asgns : List Assignment) (cmd : Option Command) (s : OptionSpec)
    (hnd : (schema.map OptionSpec.name).Nodup) (hs : s ∈ schema)
    (hscan : scanStartup schema argv = .ok (asgns, cmd)) :
    (s.kind = .repeated → suppliedRaw s.name asgns ≠ [] →
      lookupOpt (buildExplicit schema asgns) s.name =
        some (.strs ((suppliedRaw s.name asgns).map (fun o => o.getD "")))) ∧
    (¬s.kind = .repeated → ∀ v rest2, suppliedRaw s.name asgns = rest2 ++ [v] →
      lookupOpt (buildExplicit schema asgns) s.name = some (interpValue s v)) := by
  have hspec := lookupSpec_of_mem schema s hnd hs
  constructor
  · intro hk hne
    rw [lookupOpt_buildExplicit schema s.name s hspec asgns]
    unfold resolveOccs
    rw [hk]
    simp [hne]
  · intro hk v rest2 hsup
    rw [lookupOpt_buildExplicit schema s.name s hspec asgns]
    unfold resolveOccs
    cases hkk : s.kind with
    | boolean => rw [hsup]; simp
    | single => rw [hsup]; simp
    | repeated => exact absurd hkk hk

/-- Witness for C8: `--output_base` given twice resolves to the later
`/b`; `--host_jvm_args` given twice accumulates `[-x, -y]` in order. -/
theorem startup_flag_multiplicity_witness :
    lookupOpt (buildExplicit schemaEx
      [("output_base", some "/a"), ("output_base", some "/b"),
       ("host_jvm_args", some "-x"), ("host_jvm_args", some "-y")]) "host_jvm_args" =
      some (.strs ["-x", "-y"]) ∧
    lookupOpt (buildExplicit schemaEx
      [("output_base", some "/a"), ("output_base", some "/b"),
       ("host_jvm_args", some "-x"), ("host_jvm_args", some "-y")]) "output_base" =
      some (.str "/b") := by
  constructor
  · have h := (startup_flag_multiplicity schemaEx
      ["--output_base=/a", "--output_base=/b", "--host_jvm_args=-x",
       "--host_jvm_args=-y", "run"]
      [("output_base", some "/a"), ("output_base", some "/b"),
       ("host_jvm_args", some "-x"), ("host_jvm_args", some "-y")]
      (some ⟨"run", []⟩) ⟨"host_jvm_args", .repeated, .strs []⟩
      (by decide) (by decide) (by rfl)).1 rfl (by decide)
    exact h
  · have h := (startup_flag_multiplicity schemaEx
      ["--output_base=/a", "--output_base=/b", "--host_jvm_args=-x",
       "--host_jvm_args=-y", "run"]
      [("output_base", some "/a"), ("output_base", some "/b"),
       ("host_jvm_args", some "-x"), ("host_jvm_args", some "-y")]
      (some ⟨"run", []⟩) ⟨"output_base", .single, .str "/default"⟩
      (by decide) (by decide) (by rfl)).2 (by decide) "/b"
      [some "/a"] (by rfl)
    exact h

/-- Claim C2: when classification recognizes a command name, every token after
the command name appears verbatim, in order, as the `Command`'s argument
sequence — the argument vector decomposes as a startup prefix followed by
the name token and exactly the command arguments — and none of those
tokens is resolved against the startup schema: replacing them by any other
token list (including tokens textually identical to declared flags) leaves
the parsed startup options and the command name unchanged and passes the
replacement through verbatim. -/
theorem command_args_passed_verbatim (schema : Schema) (argv : List String)
    (r : ClassifyResult) (c : Command)
    (h : classify schema argv = .ok r) (hc : r.command = some c) :
    ∃ pre, argv = pre ++ c.name :: c.args ∧
      ∀ args2, classify schema (pre ++ c.name :: args2) =
        .ok ⟨r.options, some ⟨c.name, args2⟩⟩ := by
  unfold classify at h
  cases hscan : scanStartup schema argv with
  | error e =>
    rw [hscan] at h
    simp [Except.map] at h
  | ok p =>
    obtain ⟨asgns, cmd⟩ := p
    rw [hscan] at h
    simp only [Except.map, Except.ok.injEq] at h
    have hcmd : cmd = some c := by rw [← h] at hc; exact hc
    subst hcmd
    rcases scanStartup_command_suffix schema argv asgns c hscan with ⟨pre, hpre, hrep⟩
    refine ⟨pre, hpre, fun args2 => ?_⟩
    unfold classify
    rw [hrep args2, ← h]
    rfl

/-- Witness for C2: `--verbose build --verbose` yields command `build`
with the second `--verbose` passed through untouched, and replacing the
trailing arguments does not change the parsed startup options. -/
theorem command_args_passed_verbatim_witness :
    classify schemaEx ["--verbose", "build", "--verbose"] =
      .ok ⟨mkOptions schemaEx (buildExplicit schemaEx [("verbose", none)]),
        some ⟨"build", ["--verbose"]⟩⟩ ∧
    ∃ pre, ["--verbose", "build", "--verbose"] = pre ++ "build" :: ["--verbose"] ∧
      ∀ args2, classify schemaEx (pre ++ "build" :: args2) =
        .ok ⟨mkOptions schemaEx (buildExplicit schemaEx [("verbose", none)]),
          some ⟨"build", args2⟩⟩ :=
  ⟨rfl,
    command_args_passed_verbatim schemaEx ["--verbose", "build", "--verbose"]
      ⟨mkOptions schemaEx (buildExplicit schemaEx [("verbose", none)]),
        some ⟨"build", ["--verbose"]⟩⟩
      ⟨"build", ["--verbose"]⟩ rfl rfl⟩

lemma scanStartup_append_error (schema : Schema) :
    ∀ pre, flagsOnly schema pre = true →
      ∀ rest e, scanStartup schema rest = .error e →
        scanStartup schema (pre ++ rest) = .error e := by
  intro pre
  induction pre using scanStartup.induct schema with
  | case1 => intro _ rest e hrest; exact hrest
  | case2 t h =>
    intro hpre rest e hrest
    rcases flagsOnly_cons_elim schema t [] hpre with ⟨a, hca, _⟩ | ⟨n, v, rest2, hca, habs, _⟩
    · rw [h] at hca; cases hca
    · cases habs
  | case3 t h =>
    intro hpre rest e hrest
    rcases flagsOnly_cons_elim schema t [] hpre with ⟨a, hca, _⟩ | ⟨n, v, rest2, hca, habs, _⟩
    · rw [h] at hca; cases hca
    · cases habs
  | case4 t h =>
    intro hpre rest e hrest
    rcases flagsOnly_cons_elim schema t [] hpre with ⟨a, hca, _⟩ | ⟨n, v, rest2, hca, habs, _⟩
    · rw [h] at hca; cases hca
    · cases habs
  | case5 t a h =>
    intro _ rest e hrest
    rw [List.cons_append, List.nil_append,
      scanStartup_flagInline schema t rest a h, hrest]
    rfl
  | case6 t n h =>
    intro hpre rest e hrest
    rcases flagsOnly_cons_elim schema t [] hpre with ⟨a, hca, _⟩ | ⟨n2, v, rest2, hca, habs, _⟩
    · rw [h] at hca; cases hca
    · cases habs
  | case7 t u rest0 h =>
    intro hpre rest e hrest
    rcases flagsOnly_cons_elim schema t (u :: rest0) hpre with
      ⟨a, hca, _⟩ | ⟨n, v, rest2, hca, _, _⟩
    · rw [h] at hca; cases hca
    · rw [h] at hca; cases hca
  | case8 t u rest0 h =>
    intro hpre rest e hrest
    rcases flagsOnly_cons_elim schema t (u :: rest0) hpre with
      ⟨a, hca, _⟩ | ⟨n, v, rest2, hca, _, _⟩
    · rw [h] at hca; cases hca
    · rw [h] at hca; cases hca
  | case9 t u rest0 h =>
    intro hpre rest e hrest
    rcases flagsOnly_cons_elim schema t (u :: rest0) hpre with
      ⟨a, hca, _⟩ | ⟨n, v, rest2, hca, _, _⟩
    · rw [h] at hca; cases hca
    · rw [h] at hca; cases hca
  | case10 t u rest0 a h ih =>
    intro hpre rest e hrest
    rcases flagsOnly_cons_elim schema t (u :: rest0) hpre with
      ⟨a2, hca, hfo⟩ | ⟨n, v, rest2, hca, _, _⟩
    · rw [List.cons_append,
        scanStartup_flagInline schema t ((u :: rest0) ++ rest) a h,
        ih hfo rest e hrest]
      rfl
    · rw [h] at hca; cases hca
  | case11 t u rest0 n h ih =>
    intro hpre rest e hrest
    rcases flagsOnly_cons_elim schema t (u :: rest0) hpre with
      ⟨a, hca, _⟩ | ⟨n2, v, rest2, hca, heq, hfo⟩
    · rw [h] at hca; cases hca
    · rw [List.cons_append, List.cons_append,
        scanStartup_flagSep schema t u (rest0 ++ rest) n h]
      have hr0 : flagsOnly schema rest0 = true := by
        injection heq with h1 h2
        rw [h2]
        exact hfo
      rw [ih hr0 rest e hrest]
      rfl

lemma isFlagToken_sep : isFlagToken "--" = false := by decide

lemma classifyToken_violation_of_unknown (schema : Schema) (tok : String)
    (hflag : isFlagToken tok = true)
    (hunk : lookupSpec schema (flagName tok) = none) :
    classifyToken schema tok = .violation := by
  have hne : ¬tok = "--" := by
    intro he
    rw [he, isFlagToken_sep] at hflag
    cases hflag
  unfold classifyToken
  rw [if_neg hne, if_pos hflag, hunk]

/-- Claim C3: a flag-looking token whose name is not declared in the Option
Schema, placed before the command name (after any well-formed startup
flags), makes classification fail with a `SchemaViolation` regardless of
the command chosen — and the failure is entirely client-side: the run
result records no resolved workspace and no dispatcher activity. -/
theorem undeclared_startup_flag_rejected (schema : Schema) (pre : List String)
    (hpre : flagsOnly schema pre = true) (tok : String)
    (hflag : isFlagToken tok = true)
    (hunk : lookupSpec schema (flagName tok) = none)
    (cmd : String) (suffix : List String) :
    classify schema (pre ++ tok :: cmd :: suffix) = .error (.SchemaViolation tok) ∧
    ∀ (env : Env) (start_time : Nat), env.schema = schema →
      (blazeMain env (pre ++ tok :: cmd :: suffix) start_time).classification =
        .error (.SchemaViolation tok) ∧
      (blazeMain env (pre ++ tok :: cmd :: suffix) start_time).workspace = none ∧
      (blazeMain env (pre ++ tok :: cmd :: suffix) start_time).dispatcherStates = [] := by
  have hviol := classifyToken_violation_of_unknown schema tok hflag hunk
  have herr : scanStartup schema (tok :: cmd :: suffix) =
      .error (.SchemaViolation tok) :=
    scanStartup_violation schema tok (cmd :: suffix) hviol
  have hsc := scanStartup_append_error schema pre hpre (tok :: cmd :: suffix) _ herr
  have hcls : classify schema (pre ++ tok :: cmd :: suffix) =
      .error (.SchemaViolation tok) := by
    unfold classify
    rw [hsc]
    rfl
  refine ⟨hcls, fun env start_time henv => ?_⟩
  unfold blazeMain
  rw [henv, hcls]
  exact ⟨rfl, rfl, rfl⟩

/-- Witness for C3: `--verbose --bogus_flag build` is rejected with a
`SchemaViolation` naming the bogus token, before any workspace or
dispatcher activity. -/
theorem undeclared_startup_flag_rejected_witness :
    flagsOnly schemaEx ["--verbose"] = true ∧
    isFlagToken "--bogus_flag" = true ∧
    lookupSpec schemaEx (flagName "--bogus_flag") = none ∧
    classify schemaEx (["--verbose"] ++ "--bogus_flag" :: "build" :: []) =
      .error (.SchemaViolation "--bogus_flag") :=
  ⟨rfl, by decide, rfl,
    (undeclared_startup_flag_rejected schemaEx ["--verbose"] rfl "--bogus_flag"
      (by decide) rfl "build" []).1⟩

/-- Claim C5: for two concurrent invocations targeting the same output area, at
most one is in the `Locating`-through-`Dispatching` region at any reachable
instant — in particular the two are never both in `Dispatching`; while the
lock is held, the only transitions available to the other (idle)
invocation are an unchanged step by its peer, a wait that strictly
decreases its bounded retry budget, or `Failed LockContention`; and once
the lock is free an idle invocation can proceed into `Locating`. -/
theorem dispatch_mutual_exclusion (r0 r1 : Nat) (s : Sys)
    (h : Reachable (initSys r0 r1) s) :
    (¬((s.client false).st = .Dispatching ∧ (s.client true).st = .Dispatching)) ∧
    (∀ i j : Bool, (s.client i).st.isActive = true →
      (s.client j).st.isActive = true → i = j) ∧
    (∀ (s2 : Sys) (i : Bool), Step s s2 → (s.client i).st = .Idle →
      s.lock ≠ none →
      (s2.client i = s.client i) ∨
      ((s2.client i).st = .Idle ∧ (s2.client i).retries < (s.client i).retries) ∨
      (s2.client i).st = .Failed .LockContention) ∧
    (∀ i : Bool, (s.client i).st = .Idle → s.lock = none →
      ∃ s2, Step s s2 ∧ (s2.client i).st = .Locating) := by
  obtain ⟨hA, hB⟩ := lockInv_reachable r0 r1 s h
  have hObq : ∀ i j : Bool, (s.client i).st.isActive = true →
      (s.client j).st.isActive = true → i = j := by
    intro i j hi hj
    have h1 := hA i hi
    have h2 := hA j hj
    rw [h1] at h2
    injection h2
  refine ⟨?_, hObq, ?_, ?_⟩
  · rintro ⟨h0, h1⟩
    have : false = true := hObq false true (by rw [h0]; rfl) (by rw [h1]; rfl)
    cases this
  · intro s2 i hstep hidle hheld
    cases hstep with
    | acquire k hkidle hkfree => exact absurd hkfree hheld
    | wait k n hkidle hkheld hkret =>
      by_cases hk : k = i
      · subst hk
        right; left
        rw [client_withClient_same]
        rw [hkret]
        exact ⟨rfl, Nat.lt_succ_self n⟩
      · left
        exact client_withClient_other _ _ _ _ hk
    | contention k hkidle hkheld hkret =>
      by_cases hk : k = i
      · subst hk
        right; right
        rw [client_withClient_same]
      · left
        exact client_withClient_other _ _ _ _ hk
    | toConnecting k hkst =>
      by_cases hk : k = i
      · subst hk; rw [hidle] at hkst; cases hkst
      · left; exact client_withClient_other _ _ _ _ hk
    | connectOk k hkst =>
      by_cases hk : k = i
      · subst hk; rw [hidle] at hkst; cases hkst
      · left; exact client_withClient_other _ _ _ _ hk
    | connectMiss k hkst =>
      by_cases hk : k = i
      · subst hk; rw [hidle] at hkst; cases hkst
      · left; exact client_withClient_other _ _ _ _ hk
    | spawnOk k hkst =>
      by_cases hk : k = i
      · subst hk; rw [hidle] at hkst; cases hkst
      · left; exact client_withClient_other _ _ _ _ hk
    | spawnTimeout k hkst =>
      by_cases hk : k = i
      · subst hk; rw [hidle] at hkst; cases hkst
      · left
        rw [client_withLock]
        exact client_withClient_other _ _ _ _ hk
    | complete k code hkst =>
      by_cases hk : k = i
      · subst hk; rw [hidle] at hkst; cases hkst
      · left
        rw [client_withLock]
        exact client_withClient_other _ _ _ _ hk
    | interrupt k hkst =>
      by_cases hk : k = i
      · subst hk; rw [hidle] at hkst; cases hkst
      · left
        rw [client_withLock]
        exact client_withClient_other _ _ _ _ hk
  · intro i hidle hfree
    refine ⟨(s.withClient i ⟨.Locating, (s.client i).retries⟩).withLock (some i),
      Step.acquire s i hidle hfree, ?_⟩
    rw [client_withLock, client_withClient_same]

/-- Witness for C5 at the initial two-client system. -/
theorem dispatch_mutual_exclusion_witness :
    Reachable (initSys 1 1) (initSys 1 1) ∧
    ¬(((initSys 1 1).client false).st = .Dispatching ∧
      ((initSys 1 1).client true).st = .Dispatching) :=
  ⟨Relation.ReflTransGen.refl,
    (dispatch_mutual_exclusion 1 1 (initSys 1 1) Relation.ReflTransGen.refl).1⟩

/-- Claim C6: in every reachable state, an invocation that ended in `Failed` —
for any failure reason, spawn timeout, lock-contention exhaustion or
interruption included — does not hold the output-area lock; a `Spawning`
invocation that times out steps to `Failed ServerSpawnFailure` with the
lock released; and after any failure a subsequent idle invocation against
the same output area can acquire the lock without manual cleanup. -/
theorem failed_releases_lock (r0 r1 : Nat) (s : Sys)
    (h : Reachable (initSys r0 r1) s) :
    (∀ (i : Bool) (e : FailReason), (s.client i).st = .Failed e →
      ¬s.lock = some i) ∧
    (∀ i : Bool, (s.client i).st = .Spawning →
      ∃ s2, Step s s2 ∧ (s2.client i).st = .Failed .ServerSpawnFailure ∧
        s2.lock = none) ∧
    (∀ (i : Bool) (e : FailReason), (s.client i).st = .Failed e →
      (s.client (!i)).st = .Idle →
      ∃ s2, Step s s2 ∧ (s2.client (!i)).st = .Locating ∧
        s2.lock = some (!i)) := by
  obtain ⟨hA, hB⟩ := lockInv_reachable r0 r1 s h
  refine ⟨?_, ?_, ?_⟩
  · intro i e hfail hlock
    have hact := hB i hlock
    rw [hfail] at hact
    cases hact
  · intro i hsp
    refine ⟨(s.withClient i ⟨.Failed .ServerSpawnFailure, (s.client i).retries⟩).withLock none,
      Step.spawnTimeout s i hsp, ?_, rfl⟩
    rw [client_withLock, client_withClient_same]
  · intro i e hfail hidle
    have hfree : s.lock = none := by
      cases hl : s.lock with
      | none => rfl
      | some j =>
        have hact := hB j hl
        by_cases hji : j = i
        · subst hji
          rw [hfail] at hact
          cases hact
        · have hji2 : j = !i := by
            cases j <;> cases i <;> simp_all
          subst hji2
          rw [hidle] at hact
          cases hact
    refine ⟨(s.withClient (!i) ⟨.Locating, (s.client (!i)).retries⟩).withLock (some (!i)),
      Step.acquire s (!i) hidle hfree, ?_, rfl⟩
    rw [client_withLock, client_withClient_same]

/-- Witness for C6 at the initial two-client system. -/
theorem failed_releases_lock_witness :
    Reachable (initSys 2 2) (initSys 2 2) ∧
    ∀ (i : Bool) (e : FailReason), ((initSys 2 2).client i).st = .Failed e →
      ¬(initSys 2 2).lock = some i :=
  ⟨Relation.ReflTransGen.refl,
    (failed_releases_lock 2 2 (initSys 2 2) Relation.ReflTransGen.refl).1⟩

end Bazel
